import Mathlib

/-!
Shallow embedding of the SHL recommender core
(`src/shl_recommender/recommender.py` and `src/shl_recommender/data_models.py`).

Python strings are modelled as Lean `String`; float similarity scores are
modelled as `ℚ` (the claims depend only on ordering and exact arithmetic on
`1 - distance`); Python `set` results are modelled by their deduplicated
underlying lists; Python exceptions are modelled with `Except`/`Option`.
-/

namespace ShlRecommender

/-- Substring test on character lists: models Python's `pat in s`. -/
def containsSub : List Char → List Char → Bool
  | s, pat =>
    pat.isPrefixOf s ||
      match s with
      | [] => false
      | _ :: t => containsSub t pat

/-- Models Python's `pat in s` for strings. -/
def strContainsSub (s pat : String) : Bool :=
  containsSub s.data pat.data

/-- Models Python's `str.strip()` (ASCII whitespace suffices for the claims). -/
def pyStrip (s : String) : String :=
  ⟨(((s.data.dropWhile Char.isWhitespace).reverse).dropWhile
      Char.isWhitespace).reverse⟩

/-- Models Python's `str.upper()`. -/
def pyUpper (s : String) : String :=
  ⟨s.data.map Char.toUpper⟩

/-- Models Python's `str.lower()`. -/
def pyLower (s : String) : String :=
  ⟨s.data.map Char.toLower⟩

/-- Single-character split, matching Python's `str.split(sep)` for a
one-character separator. -/
def splitChar (sep : Char) : List Char → List (List Char)
  | [] => [[]]
  | c :: t =>
      if c = sep then [] :: splitChar sep t
      else
        match splitChar sep t with
        | [] => [[c]]
        | h :: r => (c :: h) :: r

/-- Models Python's `s.split(sep)` for a one-character separator. -/
def pySplit (sep : Char) (s : String) : List String :=
  (splitChar sep s.data).map (fun cs => ⟨cs⟩)

/-- `ASSESSMENT_TYPE_LABELS` from `data_models.py`: the fixed code→label table. -/
def ASSESSMENT_TYPE_LABELS : List (String × String) :=
  [("A", "Ability & Aptitude"),
   ("B", "Biodata & Situational Judgement"),
   ("C", "Competencies"),
   ("D", "Development & 360"),
   ("E", "Assessment Exercises"),
   ("K", "Knowledge & Skills"),
   ("P", "Personality & Behaviour"),
   ("S", "Simulations")]

/-- `ASSESSMENT_TYPE_LABELS.get(code)`: lookup in the code→label table. -/
def labelsGet (code : String) : Option String :=
  ASSESSMENT_TYPE_LABELS.lookup code

/-- The label mapping used in `_build_recommendation_item`:
`ASSESSMENT_TYPE_LABELS.get(code.upper(), code.upper())`. -/
def labelFor (code : String) : String :=
  (labelsGet (pyUpper code)).getD (pyUpper code)

/-- The inverse of the code→label table (the "and back" direction of the
round-trip property): maps a label to its code, and any string that is not a
label to itself. -/
def labelToCode (label : String) : String :=
  ((ASSESSMENT_TYPE_LABELS.map (fun p => (p.2, p.1))).lookup label).getD label

/-- `_bool_to_label` from `data_models.py`. -/
def bool_to_label : Option Bool → String
  | some true => "Yes"
  | some false => "No"
  | none => "Unknown"

/-- `RecommendationItem` from `data_models.py` (the pydantic URL type is
modelled as a string; `duration` is `Optional[int]`, always produced from a
digit run, hence `Option ℕ`). -/
structure RecommendationItem where
  name : String
  url : String
  description : Option String := none
  duration : Option Nat := none
  remote_support : String := "Unknown"
  adaptive_support : String := "Unknown"
  test_type : List String := []
deriving DecidableEq, Repr

/-- `AssessmentMetadata` from `data_models.py`. The Python `Set[str]` of
assessment types is modelled by the list of its elements. -/
structure AssessmentMetadata where
  entity_id : String
  name : String
  url : String
  assessment_types : List String := []
  description : Option String := none
  job_levels : List String := []
  languages : List String := []
  assessment_length : Option String := none
  remote_testing : Option Bool := none
  adaptive : Option Bool := none
deriving DecidableEq, Repr

/-- First maximal digit run of a character list (models `re.findall(r"\d+", s)[0]`). -/
def firstDigitRun : List Char → Option (List Char)
  | [] => none
  | c :: rest =>
      if c.isDigit then some (c :: rest.takeWhile Char.isDigit)
      else firstDigitRun rest

/-- Digits-to-number conversion (models `int(...)` on a digit string). -/
def digitsToNat (ds : List Char) : Nat :=
  ds.foldl (fun acc c => 10 * acc + (c.toNat - '0'.toNat)) 0

/-- `AssessmentMetadata.duration_minutes`: first integer substring of the raw
length text, if any. -/
def AssessmentMetadata.duration_minutes (m : AssessmentMetadata) : Option Nat :=
  match m.assessment_length with
  | none => none
  | some s => (firstDigitRun s.toList).map digitsToNat

/-- `AssessmentMetadata.human_readable_types`: labels for the sorted type
codes, with unknown codes passing through (after `strip().upper()`). -/
def AssessmentMetadata.human_readable_types (m : AssessmentMetadata) : List String :=
  (List.insertionSort (· ≤ ·) m.assessment_types).map
    (fun code => (labelsGet (pyUpper (pyStrip code))).getD (pyUpper (pyStrip code)))

/-- `AssessmentMetadata.remote_label`. -/
def AssessmentMetadata.remote_label (m : AssessmentMetadata) : String :=
  bool_to_label m.remote_testing

/-- `AssessmentMetadata.adaptive_label`. -/
def AssessmentMetadata.adaptive_label (m : AssessmentMetadata) : String :=
  bool_to_label m.adaptive

/-- `AssessmentMetadata.to_recommendation_item`. -/
def AssessmentMetadata.to_recommendation_item (m : AssessmentMetadata) : RecommendationItem :=
  { name := m.name
    url := m.url
    description := m.description
    duration := m.duration_minutes
    remote_support := m.remote_label
    adaptive_support := m.adaptive_label
    test_type := m.human_readable_types }

/-- `Candidate` from `recommender.py`. -/
structure Candidate where
  id : String
  name : String
  url : String
  assessment_types : List String
  document : String
  embedding_similarity : ℚ := 0
deriving DecidableEq, Repr

/-- `Candidate.short_description`: second line of the stored document text,
stripped, or absent. Python's `document.split("\n", 2)` and Lean's
`pySplit` agree on the number-of-parts test and on part 1. -/
def Candidate.short_description (c : Candidate) : Option String :=
  let parts := pySplit '\n' c.document
  if parts.length ≥ 2 then
    let value := pyStrip (parts.getD 1 "")
    if value = "" then none else some value
  else none

/-- The raw `assessment_types` metadata value: the index may return a list,
a comma-joined string, or something else (`_parse_assessment_types`). -/
inductive RawTypes where
  | list (xs : List String)
  | str (s : String)
  | other
deriving DecidableEq, Repr

/-- `RecommendationEngine._parse_assessment_types`. -/
def parse_assessment_types : RawTypes → List String
  | .list xs => xs.filterMap (fun item =>
      let t := pyStrip item
      if t = "" then none else some (pyUpper t))
  | .str s => (pySplit ',' s).filterMap (fun part =>
      let t := pyStrip part
      if t = "" then none else some (pyUpper t))
  | .other => []

/-- One metadata map from an index query row (`metadata.get(...)` fields). -/
structure RowMetadata where
  name : Option String := none
  url : Option String := none
  assessment_types : RawTypes := .other
deriving DecidableEq, Repr

/-- One row of the index query result: id, metadata, document, distance.
`metadata = none` models missing/empty metadata; `distance = none` models an
unreported distance. -/
structure QueryRow where
  id : String
  metadata : Option RowMetadata := none
  document : Option String := none
  distance : Option ℚ := none
deriving DecidableEq, Repr

/-- `similarity = 1.0 - distance if distance is not None else 0.0`. -/
def similarityFromDistance : Option ℚ → ℚ
  | some d => 1 - d
  | none => 0

/-- Row-to-candidate conversion inside `_retrieve_candidates`; rows with
missing/empty metadata are skipped. -/
def candidateOfRow (row : QueryRow) : Option Candidate :=
  match row.metadata with
  | none => none
  | some md =>
      some { id := row.id
             name := md.name.getD ""
             url := md.url.getD ""
             assessment_types := parse_assessment_types md.assessment_types
             document := row.document.getD ""
             embedding_similarity := similarityFromDistance row.distance }

/-- The candidate list built by `_retrieve_candidates` from the query rows. -/
def retrieveCandidates (rows : List QueryRow) : List Candidate :=
  rows.filterMap candidateOfRow

/-- The `valid_types` alphabet of `_extract_types_from_query`. -/
def validTypes : List String := ["A", "B", "C", "D", "E", "K", "P", "S"]

/-- The `multi_type_cues` tuple of `_extract_types_from_query`. -/
def multiTypeCues : List String :=
  [" and ", " & ", " / ", ", ", " plus ", " combination", " combinations",
   " mixed ", " mix ", " mixture", " range of", " multiple ", " variety",
   " diverse "]

/-- `any(token in query_lower for token in multi_type_cues)`. -/
def hasCue (query : String) : Bool :=
  multiTypeCues.any (fun token => strContainsSub (pyLower query) token)

/-- One step of the normalise/validate/dedup loop of
`_extract_types_from_query`: `type_code.strip().upper()`, appended when valid
and not already seen. -/
def collectStep (acc : List String) (t : String) : List String :=
  let normalized := pyUpper (pyStrip t)
  if normalized ∈ validTypes ∧ normalized ∉ acc
  then acc ++ [normalized] else acc

/-- The normalise/validate/dedup loop of `_extract_types_from_query`,
order preserved. -/
def collectValid (raw : List String) : List String :=
  raw.foldl collectStep []

/-- `RecommendationEngine._extract_types_from_query`. The extractor agent is
modelled by its outcome: `none` = no agent configured, `some (.error _)` = the
`run_sync` call raised, `some (.ok raw)` = the raw extracted code list. The
Python `set(...)` result is modelled by the deduplicated list itself. -/
def extractTypesFromQuery (agentResult : Option (Except Unit (List String)))
    (query : String) : List String :=
  match agentResult with
  | none => []
  | some (.error _) => []
  | some (.ok raw) =>
      let orderedUnique := collectValid raw
      let limited := orderedUnique.take 3
      if limited.length > 2 && !hasCue query then limited.take 2 else limited

/-- `{t.upper() for t in candidate.assessment_types}`. -/
def candidateTypesUpper (c : Candidate) : List String :=
  c.assessment_types.map pyUpper

/-- `has_match`: the candidate shares at least one code with the extracted set. -/
def hasTypeMatch (types : List String) (c : Candidate) : Bool :=
  (candidateTypesUpper c).any (fun t => types.contains t)

/-- First component of `rank_key`: `not has_match`. -/
def notMatchB (types : List String) (c : Candidate) : Bool :=
  !(hasTypeMatch types c)

/-- The total preorder `rank_key(a) ≤ rank_key(b)` with
`rank_key c = (not has_match, -similarity)` (lexicographic; `false < true`). -/
def rankRel (types : List String) (a b : Candidate) : Prop :=
  notMatchB types a < notMatchB types b ∨
    (notMatchB types a = notMatchB types b ∧
      b.embedding_similarity ≤ a.embedding_similarity)

instance (types : List String) : DecidableRel (rankRel types) := fun a b => by
  unfold rankRel; exact inferInstance

/-- The similarity-only preorder used when no types were extracted
(`key=lambda c: c.embedding_similarity, reverse=True`). -/
def simRel (a b : Candidate) : Prop :=
  b.embedding_similarity ≤ a.embedding_similarity

instance : DecidableRel simRel := fun a b => by
  unfold simRel; exact inferInstance

/-- `RecommendationEngine._rank_candidates`. Python's `sorted` is a stable
sort; `List.insertionSort` by the same total preorder is the stable sort. -/
def rankCandidates (candidates : List Candidate) (types : List String) :
    List Candidate :=
  if types = [] then List.insertionSort simRel candidates
  else List.insertionSort (rankRel types) candidates

/-- The `type_match_count` loop of `_determine_result_count`. -/
def typeMatchCount (types : List String) (candidates : List Candidate) : Nat :=
  if types = [] then 0
  else (candidates.filter (fun c => hasTypeMatch types c)).length

/-- `RecommendationEngine._determine_result_count`. -/
def determineResultCount (candidates : List Candidate) (types : List String) :
    Nat :=
  if candidates = [] then 5
  else
    let m := typeMatchCount types candidates
    if m ≥ 10 then 10
    else if m ≥ 7 then 8
    else if m ≥ 5 then 7
    else 5

/-- The spec's step function over the number `m` of category-matching
candidates. -/
def stepCount (m : Nat) : Nat :=
  if m ≥ 10 then 10 else if m ≥ 7 then 8 else if m ≥ 5 then 7 else 5

/-- The count-clamping of `recommend` (step 4): target clamped to the
configured recommendation limit (`min limit 10`), floored at 5, then clamped
to the pool size. -/
def finalCount (limit : Nat) (ranked : List Candidate) (types : List String) :
    Nat :=
  min (max 5 (min (determineResultCount ranked types) (min limit 10)))
    ranked.length

/-- `RecommendationEngine._build_recommendation_item`; the in-memory catalog
lookup `catalog_index` is modelled as a function id → optional record. -/
def buildRecommendationItem (catalog : String → Option AssessmentMetadata)
    (c : Candidate) : RecommendationItem :=
  match catalog c.id with
  | some metadata => metadata.to_recommendation_item
  | none =>
      { name := c.name
        url := c.url
        description := c.short_description
        test_type := c.assessment_types.map labelFor }

/-- `RecommendationEngine.recommend`, parametrised by the extraction outcome,
the retrieved candidate pool, the catalog lookup and the configured
recommendation limit. -/
def recommend (agentResult : Option (Except Unit (List String)))
    (retrieved : List Candidate) (catalog : String → Option AssessmentMetadata)
    (limit : Nat) (query : String) : List RecommendationItem :=
  let extracted := extractTypesFromQuery agentResult query
  if retrieved = [] then []
  else
    let ranked := rankCandidates retrieved extracted
    let desired := finalCount limit ranked extracted
    (ranked.take desired).map (buildRecommendationItem catalog)

/-- Modelled from the spec: the feature flag of the category-balance
post-filter, "currently disabled by default (feature-flagged off)". The
filter itself is absent from the provided sources; only the spec describes it. -/
def balanceEnabled : Bool := false

/-- Append an item unless it is already present (the "skipping duplicates"
rule of the balance post-filter). -/
def appendNew (l : List Candidate) (x : Candidate) : List Candidate :=
  if x ∈ l then l else l ++ [x]

/-- One round of the interleave: append the K-match then the P-match of the
round, skipping an item already placed. -/
def interleaveStep (acc : List Candidate) (kp : Candidate × Candidate) :
    List Candidate :=
  appendNew (appendNew acc kp.1) kp.2

/-- The interleaved head built from the per-round (K-match, P-match) pairs. -/
def interleavePairs (pairs : List (Candidate × Candidate)) : List Candidate :=
  pairs.foldl interleaveStep []

/-- Modelled from the spec: the category-balance post-filter over an
already-ranked list. When both category-"K" and category-"P" matches reach
`minCount`, it walks the minimum of the two counts, appends one K-match and
one P-match per round (skipping duplicates), then appends the remaining items
in existing order, truncating to the original list length; otherwise it leaves
the list unchanged. -/
def balanceFilter (minCount : Nat) (items : List Candidate) : List Candidate :=
  let kMatches := items.filter (fun c => hasTypeMatch ["K"] c)
  let pMatches := items.filter (fun c => hasTypeMatch ["P"] c)
  if minCount ≤ kMatches.length ∧ minCount ≤ pMatches.length then
    let rounds := min kMatches.length pMatches.length
    let interleaved := interleavePairs ((kMatches.take rounds).zip (pMatches.take rounds))
    let rest := items.filter (fun c => decide (c ∉ interleaved))
    (interleaved ++ rest).take items.length
  else items

/-- Modelled from the spec: the balance post-filter as a pluggable ranking
post-processor behind its feature flag. -/
def applyBalance (enabled : Bool) (minCount : Nat) (items : List Candidate) :
    List Candidate :=
  if enabled then balanceFilter minCount items else items

/- Sample data used by the concrete witnesses. -/

/-- A sample candidate tagged "K". -/
def sampleK : Candidate :=
  { id := "k1", name := "K item", url := "https://example.com/k1",
    assessment_types := ["K"], document := "K item\nShort text",
    embedding_similarity := 0 }

/-- A sample candidate tagged "P". -/
def sampleP : Candidate :=
  { id := "p1", name := "P item", url := "https://example.com/p1",
    assessment_types := ["P"], document := "P item\nOther text",
    embedding_similarity := 2 }

/-- A sample candidate tagged "A" with a one-line document. -/
def sampleA : Candidate :=
  { id := "a1", name := "A item", url := "https://example.com/a1",
    assessment_types := ["A"], document := "A item",
    embedding_similarity := 1 }

/-- A five-candidate pool used by the count counterexample. -/
def fivePool : List Candidate := [sampleA, sampleK, sampleP, sampleA, sampleK]

end ShlRecommender

namespace ShlRecommender

/-! ### Order-theoretic facts about the ranking relations -/

instance (types : List String) : IsTotal Candidate (rankRel types) :=
  ⟨fun a b => by
    rcases lt_trichotomy (notMatchB types a) (notMatchB types b) with h | h | h
    · exact Or.inl (Or.inl h)
    · rcases le_total b.embedding_similarity a.embedding_similarity with hs | hs
      · exact Or.inl (Or.inr ⟨h, hs⟩)
      · exact Or.inr (Or.inr ⟨h.symm, hs⟩)
    · exact Or.inr (Or.inl h)⟩

instance (types : List String) : IsTrans Candidate (rankRel types) :=
  ⟨fun a b c hab hbc => by
    rcases hab with h1 | ⟨e1, s1⟩ <;> rcases hbc with h2 | ⟨e2, s2⟩
    · exact Or.inl (h1.trans h2)
    · exact Or.inl (lt_of_lt_of_le h1 (le_of_eq e2))
    · exact Or.inl (lt_of_le_of_lt (le_of_eq e1) h2)
    · exact Or.inr ⟨e1.trans e2, s2.trans s1⟩⟩

instance : IsTotal Candidate simRel :=
  ⟨fun a b => le_total b.embedding_similarity a.embedding_similarity⟩

instance : IsTrans Candidate simRel :=
  ⟨fun _ _ _ h1 h2 => le_trans h2 h1⟩

/-! ### Stability of the stable sort, phrased through key-class filters -/

section StableFilter

variable {α : Type*} (r : α → α → Prop) [DecidableRel r]

theorem filter_orderedInsert_pos (p : α → Bool) (x : α) (l : List α)
    (hx : p x = true) (hl : ∀ y ∈ l, p y = true → r x y) :
    (l.orderedInsert r x).filter p = x :: l.filter p := by
  induction l with
  | nil => simp [hx]
  | cons y t ih =>
    by_cases hr : r x y
    · simp [List.orderedInsert, hr, hx]
    · have hpy : p y = false := by
        cases hpy : p y
        · rfl
        · exact absurd (hl y (by simp) hpy) hr
      have := ih (fun z hz hpz => hl z (by simp [hz]) hpz)
      simp [List.orderedInsert, hr, hpy, this]

theorem filter_orderedInsert_neg (p : α → Bool) (x : α) (l : List α)
    (hx : p x = false) :
    (l.orderedInsert r x).filter p = l.filter p := by
  induction l with
  | nil => simp [hx]
  | cons y t ih =>
    by_cases hr : r x y
    · simp [List.orderedInsert, hr, hx]
    · cases hpy : p y <;> simp [List.orderedInsert, hr, hpy, ih]

/-- A stable sort does not reorder the elements of any one key class: if all
`p`-elements are mutually related, filtering the insertion sort by `p` gives
back the original filtered list. -/
theorem filter_insertionSort (p : α → Bool)
    (hp : ∀ x y, p x = true → p y = true → r x y) :
    ∀ l : List α, (l.insertionSort r).filter p = l.filter p := by
  intro l
  induction l with
  | nil => rfl
  | cons x t ih =>
    show ((t.insertionSort r).orderedInsert r x).filter p = (x :: t).filter p
    cases hx : p x
    · rw [filter_orderedInsert_neg r p x _ hx, ih]
      simp [hx]
    · rw [filter_orderedInsert_pos r p x _ hx
        (fun y _ hpy => hp x y hx hpy), ih]
      simp [hx]

end StableFilter

theorem rankCandidates_of_ne {types : List String} (cands : List Candidate)
    (h : types ≠ []) :
    rankCandidates cands types = cands.insertionSort (rankRel types) := by
  simp [rankCandidates, h]

theorem rankCandidates_of_eq {types : List String} (cands : List Candidate)
    (h : types = []) :
    rankCandidates cands types = cands.insertionSort simRel := by
  simp [rankCandidates, h]

theorem rankRel_match_imp {types : List String} {a b : Candidate}
    (h : rankRel types a b) (hb : hasTypeMatch types b = true) :
    hasTypeMatch types a = true := by
  have hb' : notMatchB types b = false := by simp [notMatchB, hb]
  rcases h with h | ⟨e, _⟩
  · rw [hb'] at h
    simp [Bool.lt_iff] at h
  · have ha := e.trans hb'
    simpa [notMatchB] using ha

theorem rankRel_of_same_key {types : List String} {b : Bool} {s : ℚ}
    {x y : Candidate}
    (hx : (notMatchB types x == b && x.embedding_similarity == s) = true)
    (hy : (notMatchB types y == b && y.embedding_similarity == s) = true) :
    rankRel types x y := by
  simp only [Bool.and_eq_true, beq_iff_eq] at hx hy
  exact Or.inr ⟨hx.1.trans hy.1.symm, by rw [hx.2, hy.2]⟩

theorem simRel_of_same_key {b : Bool} {s : ℚ} {types : List String}
    {x y : Candidate}
    (hx : (notMatchB types x == b && x.embedding_similarity == s) = true)
    (hy : (notMatchB types y == b && y.embedding_similarity == s) = true) :
    simRel x y := by
  simp only [Bool.and_eq_true, beq_iff_eq] at hx hy
  show y.embedding_similarity ≤ x.embedding_similarity
  rw [hx.2, hy.2]

/-- C1: `_rank_candidates` is a single stable sort keyed by
`(not has_match, -similarity)`: the output is a permutation of the input; with
no extracted types it is pairwise ordered by descending similarity; with
extracted types it is pairwise ordered by the lexicographic rank relation, so
every category-matching candidate is placed strictly before every non-matching
one; and in every exact key class (match flag, similarity) the original
retrieval order is preserved (stability). -/
theorem rank_candidates_spec (types : List String) (cands : List Candidate) :
    (rankCandidates cands types).Perm cands ∧
    (types = [] → (rankCandidates cands types).Pairwise simRel) ∧
    (types ≠ [] →
      (rankCandidates cands types).Pairwise (rankRel types) ∧
      (rankCandidates cands types).Pairwise
        (fun a b => hasTypeMatch types b = true → hasTypeMatch types a = true)) ∧
    (∀ (b : Bool) (s : ℚ),
      (rankCandidates cands types).filter
          (fun c => notMatchB types c == b && c.embedding_similarity == s) =
        cands.filter
          (fun c => notMatchB types c == b && c.embedding_similarity == s)) := by
  refine ⟨?_, ?_, ?_, ?_⟩
  · by_cases ht : types = []
    · rw [rankCandidates_of_eq cands ht]
      exact List.perm_insertionSort simRel cands
    · rw [rankCandidates_of_ne cands ht]
      exact List.perm_insertionSort (rankRel types) cands
  · intro ht
    rw [rankCandidates_of_eq cands ht]
    exact List.sorted_insertionSort simRel cands
  · intro ht
    rw [rankCandidates_of_ne cands ht]
    have hs : (cands.insertionSort (rankRel types)).Pairwise (rankRel types) :=
      List.sorted_insertionSort (rankRel types) cands
    exact ⟨hs, hs.imp (fun h hb => rankRel_match_imp h hb)⟩
  · intro b s
    by_cases ht : types = []
    · rw [rankCandidates_of_eq cands ht]
      exact filter_insertionSort simRel _
        (fun x y hx hy => simRel_of_same_key hx hy) cands
    · rw [rankCandidates_of_ne cands ht]
      exact filter_insertionSort (rankRel types) _
        (fun x y hx hy => rankRel_of_same_key hx hy) cands

/-- C1 witness: concrete instance of the ranking claim on a two-candidate pool
where the "K"-tagged candidate has the lower similarity. -/
theorem rank_candidates_spec_witness :
    (rankCandidates [sampleA, sampleK] ["K"]).Perm [sampleA, sampleK] ∧
    (rankCandidates [sampleA, sampleK] ["K"]).Pairwise
      (fun a b => hasTypeMatch ["K"] b = true → hasTypeMatch ["K"] a = true) ∧
    (rankCandidates [sampleA, sampleK] ["K"]).filter
        (fun c => notMatchB ["K"] c == true && c.embedding_similarity == (1 : ℚ)) =
      [sampleA, sampleK].filter
        (fun c => notMatchB ["K"] c == true && c.embedding_similarity == (1 : ℚ)) :=
  ⟨(rank_candidates_spec ["K"] [sampleA, sampleK]).1,
   ((rank_candidates_spec ["K"] [sampleA, sampleK]).2.2.1 (by simp)).2,
   (rank_candidates_spec ["K"] [sampleA, sampleK]).2.2.2 true 1⟩

/-! ### Result-count determination (C2) -/

theorem determineResultCount_eq (cands : List Candidate) (types : List String) :
    determineResultCount cands types = stepCount (typeMatchCount types cands) := by
  by_cases hc : cands = []
  · subst hc
    by_cases ht : types = [] <;>
      simp [determineResultCount, typeMatchCount, stepCount, ht]
  · simp [determineResultCount, stepCount, hc]

theorem stepCount_bounds (m : Nat) : 5 ≤ stepCount m ∧ stepCount m ≤ 10 := by
  unfold stepCount; split_ifs <;> omega

theorem stepCount_mono {m n : Nat} (h : m ≤ n) : stepCount m ≤ stepCount n := by
  unfold stepCount; split_ifs <;> omega

/-- C2 (amended): `_determine_result_count` equals the monotone step function
applied to the number of category-matching candidates; the step function is
monotone non-decreasing; and, provided the configured recommendation limit is
at least 5, the final clamped count is at most
`min (min 10 limit) (pool size)` and at least 5 whenever at least 5 ranked
candidates exist. -/
theorem result_count_spec (limit : Nat) (ranked : List Candidate)
    (types : List String) (hlim : 5 ≤ limit) :
    determineResultCount ranked types = stepCount (typeMatchCount types ranked) ∧
    (∀ m n : Nat, m ≤ n → stepCount m ≤ stepCount n) ∧
    finalCount limit ranked types ≤ min (min 10 limit) ranked.length ∧
    (5 ≤ ranked.length → 5 ≤ finalCount limit ranked types) := by
  have hb := stepCount_bounds (typeMatchCount types ranked)
  refine ⟨determineResultCount_eq ranked types, fun m n h => stepCount_mono h, ?_, ?_⟩
  · unfold finalCount
    rw [determineResultCount_eq]
    omega
  · intro hlen
    unfold finalCount
    rw [determineResultCount_eq]
    omega

/-- C2 witness: the amended claim instantiated with limit 10 and a concrete
five-candidate pool. -/
theorem result_count_spec_witness :
    determineResultCount fivePool [] = stepCount (typeMatchCount [] fivePool) ∧
    finalCount 10 fivePool [] ≤ min (min 10 10) fivePool.length ∧
    5 ≤ finalCount 10 fivePool [] :=
  ⟨(result_count_spec 10 fivePool [] (by decide)).1,
   (result_count_spec 10 fivePool [] (by decide)).2.2.1,
   (result_count_spec 10 fivePool [] (by decide)).2.2.2 (by decide)⟩

/-- C2 counterexample: with a configured recommendation limit of 3 and a
five-candidate pool, the final count is 5, which is not within
`[5, min(10, limit, pool size)] = [5, 3]` — the floor of 5 overrides the
configured limit, refuting the claimed bracket for limits below 5. -/
theorem result_count_counterexample :
    finalCount 3 fivePool [] = 5 ∧
    ¬(finalCount 3 fivePool [] ≤ min (min 10 3) fivePool.length) :=
  ⟨by decide, by decide⟩

/-! ### Category-code extraction (C3) -/

theorem foldl_collectStep_invariant (raw : List String) :
    ∀ acc : List String, (∀ c ∈ acc, c ∈ validTypes) → acc.Nodup →
      (∀ c ∈ raw.foldl collectStep acc, c ∈ validTypes) ∧
        (raw.foldl collectStep acc).Nodup := by
  induction raw with
  | nil => exact fun acc h1 h2 => ⟨h1, h2⟩
  | cons t rest ih =>
    intro acc h1 h2
    rw [List.foldl_cons]
    apply ih
    · intro c hc
      simp only [collectStep] at hc
      split at hc
      · next h =>
        rcases List.mem_append.1 hc with hc | hc
        · exact h1 c hc
        · rw [List.mem_singleton] at hc
          subst hc
          exact h.1
      · exact h1 c hc
    · simp only [collectStep]
      split
      · next h => simp [List.nodup_append, h2, h.2]
      · exact h2

theorem collectValid_mem_nodup (raw : List String) :
    (∀ c ∈ collectValid raw, c ∈ validTypes) ∧ (collectValid raw).Nodup :=
  foldl_collectStep_invariant raw [] (by simp) List.nodup_nil

theorem extractTypes_ok (raw : List String) (query : String) :
    extractTypesFromQuery (some (.ok raw)) query =
      if ((collectValid raw).take 3).length > 2 && !hasCue query
      then ((collectValid raw).take 3).take 2
      else (collectValid raw).take 3 := rfl

/-- C3: the extraction stage yields only codes from the fixed alphabet
{A,B,C,D,E,K,P,S}, with no repeats, at most 3 of them, at most 2 unless the
lowercased query contains a recognized multi-category cue substring, and the
empty set when no extractor is configured. -/
theorem extract_types_spec (agentResult : Option (Except Unit (List String)))
    (query : String) :
    (∀ c ∈ extractTypesFromQuery agentResult query, c ∈ validTypes) ∧
    (extractTypesFromQuery agentResult query).Nodup ∧
    (extractTypesFromQuery agentResult query).length ≤ 3 ∧
    (hasCue query = false →
      (extractTypesFromQuery agentResult query).length ≤ 2) ∧
    (agentResult = none → extractTypesFromQuery agentResult query = []) := by
  match agentResult with
  | none => simp [extractTypesFromQuery]
  | some (.error e) => simp [extractTypesFromQuery]
  | some (.ok raw) =>
    have hcv := collectValid_mem_nodup raw
    have houtsub : ∀ c ∈ extractTypesFromQuery (some (.ok raw)) query,
        c ∈ collectValid raw := by
      intro c hc
      rw [extractTypes_ok] at hc
      split at hc
      · exact List.take_subset 3 _ (List.take_subset 2 _ hc)
      · exact List.take_subset 3 _ hc
    have hndout : (extractTypesFromQuery (some (.ok raw)) query).Nodup := by
      rw [extractTypes_ok]
      split
      · exact List.Nodup.sublist
          ((List.take_sublist 2 _).trans (List.take_sublist 3 _)) hcv.2
      · exact List.Nodup.sublist (List.take_sublist 3 _) hcv.2
    have hlen3 : (extractTypesFromQuery (some (.ok raw)) query).length ≤ 3 := by
      rw [extractTypes_ok]
      split
      · have := List.length_take_le 2 ((collectValid raw).take 3)
        omega
      · exact List.length_take_le 3 _
    refine ⟨fun c hc => hcv.1 c (houtsub c hc), hndout, hlen3, ?_,
      fun h => by cases h⟩
    intro hq
    rw [extractTypes_ok]
    split
    · exact List.length_take_le 2 _
    · next h =>
      rw [hq] at h
      simp only [Bool.not_false, Bool.and_true, decide_eq_true_eq] at h
      have := List.length_take_le 3 (collectValid raw)
      omega

/-- C3 witness: a raw extractor output with mixed case, whitespace, an invalid
code and a duplicate, against a query with no multi-category cue. -/
theorem extract_types_spec_witness :
    (extractTypesFromQuery (some (.ok ["k", " p ", "x", "K", "a"]))
        "standalone").Nodup ∧
    (extractTypesFromQuery (some (.ok ["k", " p ", "x", "K", "a"]))
        "standalone").length ≤ 3 ∧
    (extractTypesFromQuery (some (.ok ["k", " p ", "x", "K", "a"]))
        "standalone").length ≤ 2 :=
  ⟨(extract_types_spec (some (.ok ["k", " p ", "x", "K", "a"])) "standalone").2.1,
   (extract_types_spec (some (.ok ["k", " p ", "x", "K", "a"])) "standalone").2.2.1,
   (extract_types_spec (some (.ok ["k", " p ", "x", "K", "a"])) "standalone").2.2.2.1
     (by decide)⟩

/-! ### Empty retrieval, extraction failure (C4, C5) -/

/-- C4: if retrieval yields zero candidates, `recommend` returns the empty
list immediately; the embedding mirrors the source's early return, so no
ranking, result-count determination, or item construction is applied after
the emptiness check. -/
theorem recommend_empty_retrieval
    (agentResult : Option (Except Unit (List String)))
    (catalog : String → Option AssessmentMetadata) (limit : Nat)
    (query : String) :
    recommend agentResult [] catalog limit query = [] := rfl

/-- C5: an extractor error is absorbed inside `_extract_types_from_query`,
yielding the empty extracted set, and the whole pipeline then behaves exactly
as if no extractor were configured — retrieval, ranking and item construction
still run and no exception propagates. -/
theorem extraction_error_recovered (e : Unit) (retrieved : List Candidate)
    (catalog : String → Option AssessmentMetadata) (limit : Nat)
    (query : String) :
    extractTypesFromQuery (some (Except.error e)) query = [] ∧
    recommend (some (Except.error e)) retrieved catalog limit query =
      recommend none retrieved catalog limit query :=
  ⟨rfl, rfl⟩

/-! ### Similarity from distance (C6) -/

/-- A sample retrieval row with no reported distance. -/
def sampleRow : QueryRow :=
  { id := "k1",
    metadata := some { name := some "K item",
                       url := some "https://example.com/k1",
                       assessment_types := .list ["K"] },
    document := some "K item\nShort text",
    distance := none }

/-- The candidate `_retrieve_candidates` builds from `sampleRow`. -/
def sampleRowCandidate : Candidate :=
  { id := "k1", name := "K item", url := "https://example.com/k1",
    assessment_types := ["K"], document := "K item\nShort text",
    embedding_similarity := 0 }

/-- C6 (amended): the candidate similarity is `1 − distance` when a distance
is reported and `0` when it is absent; for a reported distance in the index's
bounded metric range `[0, 2]` the similarity lies in `[−1, 1]` (not `[0, 1]`
as originally claimed). -/
theorem similarity_spec (d : ℚ) (row : QueryRow) (c : Candidate) :
    similarityFromDistance (some d) = 1 - d ∧
    similarityFromDistance none = 0 ∧
    (0 ≤ d → d ≤ 2 →
      -1 ≤ similarityFromDistance (some d) ∧
        similarityFromDistance (some d) ≤ 1) ∧
    (candidateOfRow row = some c →
      c.embedding_similarity = similarityFromDistance row.distance) := by
  refine ⟨rfl, rfl, fun h1 h2 => ?_, fun h => ?_⟩
  · simp only [similarityFromDistance]
    constructor <;> linarith
  · rcases row with ⟨rid, md, doc, dist⟩
    cases md with
    | none => simp [candidateOfRow] at h
    | some m =>
        simp only [candidateOfRow] at h
        rw [Option.some.injEq] at h
        subst h
        rfl

/-- C6 witness: the similarity facts instantiated at distance 1 and the
concrete sample row. -/
theorem similarity_spec_witness :
    (-1 ≤ similarityFromDistance (some (1 : ℚ)) ∧
      similarityFromDistance (some (1 : ℚ)) ≤ 1) ∧
    sampleRowCandidate.embedding_similarity =
      similarityFromDistance sampleRow.distance :=
  ⟨(similarity_spec 1 sampleRow sampleRowCandidate).2.2.1 (by norm_num)
      (by norm_num),
   (similarity_spec 1 sampleRow sampleRowCandidate).2.2.2 (by decide)⟩

/-- C6 counterexample: a reported distance of 2 is inside the claimed metric
range `[0, 2]`, but the resulting similarity `1 − 2 = −1` is not in `[0, 1]`. -/
theorem similarity_counterexample :
    (0 : ℚ) ≤ 2 ∧ (2 : ℚ) ≤ 2 ∧ similarityFromDistance (some 2) = -1 ∧
    ¬(0 ≤ similarityFromDistance (some 2)) := by
  refine ⟨by norm_num, le_refl _, ?_, ?_⟩ <;> norm_num [similarityFromDistance]

/-! ### Label-table round trip (C7) -/

theorem labelsGet_eq_none {c : String} (hc : c ∉ validTypes) :
    labelsGet c = none := by
  simp only [validTypes, List.mem_cons, List.not_mem_nil, or_false,
    not_or] at hc
  obtain ⟨h1, h2, h3, h4, h5, h6, h7, h8⟩ := hc
  have e1 : (c == "A") = false := beq_eq_false_iff_ne.mpr h1
  have e2 : (c == "B") = false := beq_eq_false_iff_ne.mpr h2
  have e3 : (c == "C") = false := beq_eq_false_iff_ne.mpr h3
  have e4 : (c == "D") = false := beq_eq_false_iff_ne.mpr h4
  have e5 : (c == "E") = false := beq_eq_false_iff_ne.mpr h5
  have e6 : (c == "K") = false := beq_eq_false_iff_ne.mpr h6
  have e7 : (c == "P") = false := beq_eq_false_iff_ne.mpr h7
  have e8 : (c == "S") = false := beq_eq_false_iff_ne.mpr h8
  simp [labelsGet, ASSESSMENT_TYPE_LABELS, List.lookup, e1, e2, e3, e4, e5,
    e6, e7, e8]

theorem labelToCode_labelFor {c : String} (h1 : pyUpper c = c)
    (h2 : labelToCode c = c) : labelToCode (labelFor c) = c := by
  by_cases hc : c ∈ validTypes
  · simp only [validTypes, List.mem_cons, List.not_mem_nil, or_false] at hc
    rcases hc with rfl | rfl | rfl | rfl | rfl | rfl | rfl | rfl <;> decide
  · have hfix : labelFor c = c := by
      unfold labelFor
      rw [h1, labelsGet_eq_none hc]
      rfl
    rw [hfix]
    exact h2

/-- C7: the code→label table is a strict 1:1 enumeration over the 8 known
codes (pairwise distinct labels, invertible), unknown normalized codes pass
through the label mapping unchanged, and mapping any list of normalized
non-label codes through the table and back preserves it elementwise. -/
theorem label_round_trip (codes : List String)
    (h : ∀ c ∈ codes, pyUpper c = c ∧ labelToCode c = c) :
    ((codes.map labelFor).map labelToCode = codes) ∧
    (validTypes.map labelFor).Nodup ∧
    (∀ c ∈ validTypes, labelToCode (labelFor c) = c) ∧
    (∀ c : String, pyUpper c = c → labelsGet c = none → labelFor c = c) := by
  refine ⟨?_, by decide, ?_, ?_⟩
  · induction codes with
    | nil => rfl
    | cons x t ih =>
        simp only [List.map_cons, List.cons.injEq]
        exact ⟨labelToCode_labelFor (h x (by simp)).1 (h x (by simp)).2,
          ih (fun c hc => h c (List.mem_cons_of_mem x hc))⟩
  · intro c hc
    simp only [validTypes, List.mem_cons, List.not_mem_nil, or_false] at hc
    rcases hc with rfl | rfl | rfl | rfl | rfl | rfl | rfl | rfl <;> decide
  · intro c h1 hn
    unfold labelFor
    rw [h1, hn]
    rfl

/-- C7 witness: the round trip on two known codes and the unknown code "Q". -/
theorem label_round_trip_witness :
    (["K", "P", "Q"].map labelFor).map labelToCode = ["K", "P", "Q"] :=
  (label_round_trip ["K", "P", "Q"] (by decide)).1

/-! ### Item construction (C8, C10) -/

/-- A sample catalog record for candidate id "k1". -/
def sampleMetadata : AssessmentMetadata :=
  { entity_id := "k1", name := "K rec", url := "https://example.com/k1",
    assessment_types := ["K"], description := some "A knowledge test",
    assessment_length := some "30 minutes", remote_testing := some true,
    adaptive := some false }

/-- C8: item construction uses the full catalog record when the candidate id
is in the catalog lookup, and otherwise reconstructs the item from the
candidate alone — description from the document's second line, labels from
the code→label table with raw-code fallback; with an empty catalog every
item's description is the document-blob second line. -/
theorem build_item_spec (catalog : String → Option AssessmentMetadata)
    (c : Candidate) :
    (∀ m : AssessmentMetadata, catalog c.id = some m →
      buildRecommendationItem catalog c = m.to_recommendation_item) ∧
    (catalog c.id = none →
      buildRecommendationItem catalog c =
        { name := c.name, url := c.url, description := c.short_description,
          test_type := c.assessment_types.map labelFor }) ∧
    (∀ c' : Candidate,
      (buildRecommendationItem (fun _ => none) c').description =
        c'.short_description) := by
  refine ⟨fun m hm => ?_, fun hn => ?_, fun c' => rfl⟩
  · unfold buildRecommendationItem
    rw [hm]
  · unfold buildRecommendationItem
    rw [hn]

/-- C8 witness: both the catalog-hit and catalog-miss branches at concrete
inputs. -/
theorem build_item_spec_witness :
    buildRecommendationItem (fun i => if i = "k1" then some sampleMetadata else none)
        sampleK = sampleMetadata.to_recommendation_item ∧
    buildRecommendationItem (fun _ => none) sampleK =
      { name := sampleK.name, url := sampleK.url,
        description := sampleK.short_description,
        test_type := sampleK.assessment_types.map labelFor } :=
  ⟨(build_item_spec (fun i => if i = "k1" then some sampleMetadata else none)
      sampleK).1 sampleMetadata (by decide),
   (build_item_spec (fun _ => none) sampleK).2.1 rfl⟩

/-- C10: a fallback-constructed item always has no duration and "Unknown"
remote/adaptive labels, and its description is absent (not an empty string)
whenever the document has fewer than two lines or a blank second line. -/
theorem fallback_item_fields (catalog : String → Option AssessmentMetadata)
    (c : Candidate) (h : catalog c.id = none) :
    (buildRecommendationItem catalog c).duration = none ∧
    (buildRecommendationItem catalog c).remote_support = "Unknown" ∧
    (buildRecommendationItem catalog c).adaptive_support = "Unknown" ∧
    (((pySplit '\n' c.document).length < 2 ∨
        pyStrip ((pySplit '\n' c.document).getD 1 "") = "") →
      (buildRecommendationItem catalog c).description = none) := by
  have hb : buildRecommendationItem catalog c =
      { name := c.name, url := c.url, description := c.short_description,
        test_type := c.assessment_types.map labelFor } := by
    unfold buildRecommendationItem
    rw [h]
  rw [hb]
  refine ⟨rfl, rfl, rfl, fun hd => ?_⟩
  simp only [Candidate.short_description]
  split_ifs with h1 h2
  · rfl
  · rcases hd with hd | hd
    · omega
    · exact absurd hd h2
  · rfl

/-- C10 witness: the fallback item for a candidate with a one-line document
has absent duration/description and "Unknown" support labels. -/
theorem fallback_item_fields_witness :
    (buildRecommendationItem (fun _ => none) sampleA).duration = none ∧
    (buildRecommendationItem (fun _ => none) sampleA).remote_support = "Unknown" ∧
    (buildRecommendationItem (fun _ => none) sampleA).adaptive_support = "Unknown" ∧
    (buildRecommendationItem (fun _ => none) sampleA).description = none :=
  ⟨(fallback_item_fields (fun _ => none) sampleA rfl).1,
   (fallback_item_fields (fun _ => none) sampleA rfl).2.1,
   (fallback_item_fields (fun _ => none) sampleA rfl).2.2.1,
   (fallback_item_fields (fun _ => none) sampleA rfl).2.2.2 (by decide)⟩

/-! ### Category-balance post-filter (C9, modelled from the spec) -/

theorem appendNew_nodup {l : List Candidate} (x : Candidate) (h : l.Nodup) :
    (appendNew l x).Nodup := by
  unfold appendNew
  split_ifs with hm
  · exact h
  · simp [List.nodup_append, h, hm]

theorem mem_appendNew {l : List Candidate} {x y : Candidate}
    (hy : y ∈ appendNew l x) : y ∈ l ∨ y = x := by
  unfold appendNew at hy
  split_ifs at hy with hm
  · exact Or.inl hy
  · rcases List.mem_append.1 hy with hy | hy
    · exact Or.inl hy
    · exact Or.inr (List.mem_singleton.1 hy)

theorem foldl_interleaveStep_nodup (pairs : List (Candidate × Candidate)) :
    ∀ acc : List Candidate, acc.Nodup →
      (pairs.foldl interleaveStep acc).Nodup := by
  induction pairs with
  | nil => exact fun acc h => h
  | cons kp rest ih =>
      intro acc h
      rw [List.foldl_cons]
      exact ih _ (appendNew_nodup kp.2 (appendNew_nodup kp.1 h))

theorem mem_foldl_interleaveStep (pairs : List (Candidate × Candidate)) :
    ∀ (acc : List Candidate) (x : Candidate),
      x ∈ pairs.foldl interleaveStep acc →
      x ∈ acc ∨ ∃ p ∈ pairs, x = p.1 ∨ x = p.2 := by
  induction pairs with
  | nil => exact fun acc x hx => Or.inl hx
  | cons kp rest ih =>
      intro acc x hx
      rw [List.foldl_cons] at hx
      rcases ih _ x hx with hx | ⟨p, hp, he⟩
      · rcases mem_appendNew hx with hx | hx
        · rcases mem_appendNew hx with hx | hx
          · exact Or.inl hx
          · exact Or.inr ⟨kp, by simp, Or.inl hx⟩
        · exact Or.inr ⟨kp, by simp, Or.inr hx⟩
      · exact Or.inr ⟨p, List.mem_cons_of_mem kp hp, he⟩

theorem interleavePairs_nodup (pairs : List (Candidate × Candidate)) :
    (interleavePairs pairs).Nodup :=
  foldl_interleaveStep_nodup pairs [] List.nodup_nil

theorem interleavePairs_mem {pairs : List (Candidate × Candidate)}
    {x : Candidate} (hx : x ∈ interleavePairs pairs) :
    ∃ p ∈ pairs, x = p.1 ∨ x = p.2 := by
  rcases mem_foldl_interleaveStep pairs [] x hx with h | h
  · cases h
  · exact h

/-- C9 (spec-modelled): the category-balance post-filter is available behind
its feature flag (off by default, identity when off, the filter when on);
below the configured minimum for either category it leaves the ranked list
unchanged; when both K- and P-matches reach the minimum it produces the
interleaved head followed by the remaining items, truncated to — and exactly
preserving — the original list length, and the output is a permutation of the
input (no item lost or duplicated when the input has no duplicates). -/
theorem balance_filter_spec (minCount : Nat) (items : List Candidate)
    (hnd : items.Nodup) :
    (applyBalance balanceEnabled minCount items = items ∧
      applyBalance true minCount items = balanceFilter minCount items) ∧
    (¬(minCount ≤ (items.filter (fun c => hasTypeMatch ["K"] c)).length ∧
        minCount ≤ (items.filter (fun c => hasTypeMatch ["P"] c)).length) →
      balanceFilter minCount items = items) ∧
    ((minCount ≤ (items.filter (fun c => hasTypeMatch ["K"] c)).length ∧
        minCount ≤ (items.filter (fun c => hasTypeMatch ["P"] c)).length) →
      (balanceFilter minCount items).Perm items ∧
      (balanceFilter minCount items).length = items.length) := by
  refine ⟨⟨rfl, rfl⟩, fun hcond => ?_, fun hcond => ?_⟩
  · simp only [balanceFilter]
    rw [if_neg hcond]
  · have heq : balanceFilter minCount items =
        (interleavePairs
            (((items.filter (fun c => hasTypeMatch ["K"] c)).take
                (min (items.filter (fun c => hasTypeMatch ["K"] c)).length
                  (items.filter (fun c => hasTypeMatch ["P"] c)).length)).zip
              ((items.filter (fun c => hasTypeMatch ["P"] c)).take
                (min (items.filter (fun c => hasTypeMatch ["K"] c)).length
                  (items.filter (fun c => hasTypeMatch ["P"] c)).length))) ++
          items.filter (fun c => decide (c ∉ interleavePairs
            (((items.filter (fun c => hasTypeMatch ["K"] c)).take
                (min (items.filter (fun c => hasTypeMatch ["K"] c)).length
                  (items.filter (fun c => hasTypeMatch ["P"] c)).length)).zip
              ((items.filter (fun c => hasTypeMatch ["P"] c)).take
                (min (items.filter (fun c => hasTypeMatch ["K"] c)).length
                  (items.filter (fun c => hasTypeMatch ["P"] c)).length)))))).take
          items.length := by
      simp only [balanceFilter]
      rw [if_pos hcond]
    set il := interleavePairs
      (((items.filter (fun c => hasTypeMatch ["K"] c)).take
          (min (items.filter (fun c => hasTypeMatch ["K"] c)).length
            (items.filter (fun c => hasTypeMatch ["P"] c)).length)).zip
        ((items.filter (fun c => hasTypeMatch ["P"] c)).take
          (min (items.filter (fun c => hasTypeMatch ["K"] c)).length
            (items.filter (fun c => hasTypeMatch ["P"] c)).length))) with hil
    have hil_nodup : il.Nodup := interleavePairs_nodup _
    have hil_sub : ∀ x ∈ il, x ∈ items := by
      intro x hx
      rcases interleavePairs_mem hx with ⟨⟨p1, p2⟩, hp, he⟩
      have hz := List.of_mem_zip hp
      rcases he with he | he
      · subst he
        exact List.mem_of_mem_filter (List.take_subset _ _ hz.1)
      · subst he
        exact List.mem_of_mem_filter (List.take_subset _ _ hz.2)
    have hfil : List.Perm (items.filter (fun c => decide (c ∈ il))) il := by
      refine (List.perm_ext_iff_of_nodup (hnd.filter _) hil_nodup).2 ?_
      intro a
      simp only [List.mem_filter, decide_eq_true_eq]
      exact ⟨fun h => h.2, fun h => ⟨hil_sub a h, h⟩⟩
    have hperm : List.Perm
        (il ++ items.filter (fun c => decide (c ∉ il))) items := by
      have hsplit := List.filter_append_perm (fun c => decide (c ∈ il)) items
      have hrw : items.filter (fun c => !(decide (c ∈ il))) =
          items.filter (fun c => decide (c ∉ il)) := by
        simp only [decide_not]
      rw [hrw] at hsplit
      exact ((hfil.symm.append_right _).trans hsplit)
    have hlen : (il ++ items.filter (fun c => decide (c ∉ il))).length =
        items.length := hperm.length_eq
    have htake : (il ++ items.filter (fun c => decide (c ∉ il))).take
        items.length = il ++ items.filter (fun c => decide (c ∉ il)) := by
      rw [← hlen]
      exact List.take_length _
    rw [heq, htake]
    exact ⟨hperm, hlen⟩

/-- C9 witness: the balance filter on a concrete ranked list with one K-match
and one P-match and minimum count 1; the disabled flag is the identity. -/
theorem balance_filter_spec_witness :
    (applyBalance balanceEnabled 1 [sampleA, sampleK, sampleP] =
        [sampleA, sampleK, sampleP] ∧
      applyBalance true 1 [sampleA, sampleK, sampleP] =
        balanceFilter 1 [sampleA, sampleK, sampleP]) ∧
    (balanceFilter 1 [sampleA, sampleK, sampleP]).Perm
      [sampleA, sampleK, sampleP] ∧
    (balanceFilter 1 [sampleA, sampleK, sampleP]).length =
      [sampleA, sampleK, sampleP].length :=
  ⟨(balance_filter_spec 1 [sampleA, sampleK, sampleP] (by decide)).1,
   ((balance_filter_spec 1 [sampleA, sampleK, sampleP] (by decide)).2.2
      (by decide)).1,
   ((balance_filter_spec 1 [sampleA, sampleK, sampleP] (by decide)).2.2
      (by decide)).2⟩

end ShlRecommender
